import Mathlib

/-!
Verification of the search-algorithm study repository
(`src/ProjectUtils.h`, `src/main.cpp`).

The C++ code is shallowly embedded as Lean functions:

* `std::vector<int>` becomes `List Int`; `int` values are modelled as
  unbounded `Int` (the programs under study never overflow `int` on the
  inputs the specification quantifies over, and the one place the source
  widens to `long long` is modelled exactly as written there);
* every raw array access `arr[i]` of the C++ is performed through
  `getI` / `getN`, which return `none` when the index is out of bounds,
  and the embedded functions propagate that `none` as a fault, so that
  "no out-of-bounds access happens" is the statement "the result is
  `some _`";
* `std::stoi`, `std::sort`, `std::unique` and `std::lower_bound` are
  modelled by executable Lean functions with the semantics the C++
  standard gives them (`std::sort` by an insertion sort producing a
  permutation sorted by the comparator, which determines the result
  uniquely for the comparators used here);
* the file system behind `loadAndSortDatasetFromFile` is abstracted as
  an `Option (List String)` argument: `none` for "the file could not be
  opened", `some lines` for its contents, and the by-reference dataset
  parameter is state-passed (input dataset in, output dataset out);
* the wall clock behind `measureSearchTime` is abstracted as the two
  samples it reads, and the single call of the searched function is
  routed through `callCounted`, which reports how many times the
  harness applied it.
-/

namespace ProjectUtils

/-- Bounds-checked read of `arr[i]` for a signed index, the embedding of a
raw C++ `arr[i]` with `int` index: `none` signals an out-of-bounds access. -/
def getI (arr : List Int) (i : Int) : Option Int :=
  if 0 ≤ i then arr[i.toNat]? else none

/-- Bounds-checked read of `arr[i]` for an unsigned index. -/
def getN (arr : List Int) (i : Nat) : Option Int :=
  arr[i]?

/-- The linear-scan loop of `jumpSearch`
(`while (prev < n && arr[prev] < target) prev++;`, ProjectUtils.h:171-173).
Returns the final value of `prev`, or `none` on an out-of-bounds read. -/
def scanLoop (arr : List Int) (target : Int) (prev : Nat) : Option Nat :=
  if prev < arr.length then
    match getN arr prev with
    | none => none
    | some a => if a < target then scanLoop arr target (prev + 1) else some prev
  else some prev
termination_by arr.length - prev
decreasing_by omega

/-- The final check of `jumpSearch`
(`if (prev < n && arr[prev] == target) return prev; return -1;`,
ProjectUtils.h:176-180). -/
def jumpFinish (arr : List Int) (target : Int) (prev : Nat) : Option Int :=
  if prev < arr.length then
    match getN arr prev with
    | none => none
    | some a => if a = target then some (prev : Int) else some (-1)
  else some (-1)

/-- The block-jumping loop of `jumpSearch` (ProjectUtils.h:162-168) followed by
the linear scan and final check.  `s` is the block size
`static_cast<int>(std::sqrt(n))`; the loop body sets `prev = step`,
`step += s`, and returns `-1` as soon as `prev >= n`.  The hypothesis
`0 < s` records that the function is only entered with `n > 0`, for which
`sqrt(n) >= 1`; it is what makes the C++ loop terminate. -/
def blockLoop (arr : List Int) (target : Int) (s : Nat) (hs : 0 < s)
    (prev step : Nat) : Option Int :=
  if prev < arr.length then
    match getN arr (min step arr.length - 1) with
    | none => none
    | some a =>
      if a < target then
        if hend : arr.length ≤ step then some (-1)
        else blockLoop arr target s hs step (step + s)
      else
        match scanLoop arr target prev with
        | none => none
        | some p => jumpFinish arr target p
  else
    match scanLoop arr target prev with
    | none => none
    | some p => jumpFinish arr target p
termination_by arr.length - step
decreasing_by omega

/-- `ProjectUtils::jumpSearch` (ProjectUtils.h:154-181): block size
`floor(sqrt n)` (the value of `static_cast<int>(std::sqrt(n))` for every
array that fits in memory), starting block `[0, sqrt n)`. -/
def jumpSearch (arr : List Int) (target : Int) : Option Int :=
  if h : arr.length = 0 then some (-1)
  else blockLoop arr target (Nat.sqrt arr.length)
    (Nat.sqrt_pos.mpr (Nat.pos_of_ne_zero h)) 0 (Nat.sqrt arr.length)

/-- The probe position exactly as the source computes it
(ProjectUtils.h:209):
`(long long)low + (((long long)high - low) / (arr[high] - arr[low])) * (target - arr[low])`.
C++ `/` on these operands truncates toward zero, i.e. `Int.tdiv`; note the
source divides `(high - low)` by `(arr[high] - arr[low])` first and only then
multiplies by `(target - arr[low])`. -/
def probePos (low high alow ahigh target : Int) : Int :=
  low + ((high - low).tdiv (ahigh - alow)) * (target - alow)

/-- Modelled from the spec: the probe formula the specification prescribes,
`pos = low + ((high - low) * (target - arr[low])) / (arr[high] - arr[low])`,
with the full product formed before the (truncating) division, in widened
exact arithmetic.  Stated only to compare with `probePos`, the formula the
source actually computes. -/
def probePosSpec (low high alow ahigh target : Int) : Int :=
  low + ((high - low) * (target - alow)).tdiv (ahigh - alow)

/-- The loop of `interpolationSearch` (ProjectUtils.h:199-230).  The loop
condition `low <= high && target >= arr[low] && target <= arr[high]`
short-circuits, so `arr[low]` is only read under `low ≤ high` and
`arr[high]` only after the middle conjunct held. -/
def interpLoop (arr : List Int) (target : Int) (low high : Int) : Option Int :=
  if low ≤ high then
    match getI arr low with
    | none => none
    | some alow =>
      if target ≥ alow then
        match getI arr high with
        | none => none
        | some ahigh =>
          if target ≤ ahigh then
            if low = high then
              (if alow = target then some low else some (-1))
            else
              let pos_calc : Int := probePos low high alow ahigh target
              if hpos : pos_calc < low ∨ pos_calc > high then some (-1)
              else
                match getI arr pos_calc with
                | none => none
                | some apos =>
                  if apos = target then some pos_calc
                  else if apos < target then interpLoop arr target (pos_calc + 1) high
                  else interpLoop arr target low (pos_calc - 1)
          else some (-1)
      else some (-1)
  else some (-1)
termination_by (high + 1 - low).toNat
decreasing_by
  · push_neg at hpos
    omega
  · push_neg at hpos
    omega

/-- `ProjectUtils::interpolationSearch` (ProjectUtils.h:195-232):
`low = 0`, `high = arr.size() - 1` (which is `-1` for the empty vector,
`size_t` wrap-around converted back to `int`). -/
def interpolationSearch (arr : List Int) (target : Int) : Option Int :=
  interpLoop arr target 0 ((arr.length : Int) - 1)

/-- The whitespace class `std::stoi` skips (C locale `isspace`). -/
def isSpaceChar (c : Char) : Bool :=
  c = ' ' ∨ c = '\t' ∨ c = '\n' ∨ c = '\x0b' ∨ c = '\x0c' ∨ c = '\r'

/-- Numeric value of a decimal digit character. -/
def digitVal (c : Char) : Nat := c.toNat - 48

/-- Value of a string of decimal digits, most significant first. -/
def digitsToNat (ds : List Char) : Nat :=
  ds.foldl (fun a c => a * 10 + digitVal c) 0

/-- `INT_MAX` of the target platform (32-bit `int`). -/
def intMax : Int := 2147483647

/-- `INT_MIN` of the target platform (32-bit `int`). -/
def intMin : Int := -2147483648

/-- Sign handling of `std::stoi`: an optional single leading `-` or `+`. -/
def splitSign (cs : List Char) : Bool × List Char :=
  match cs with
  | [] => (false, [])
  | c :: r => if c = '-' then (true, r) else if c = '+' then (false, r) else (false, c :: r)

/-- Model of `std::stoi(line)` as used at ProjectUtils.h:111 (base 10):
skip leading whitespace, read an optional sign and then the longest run of
decimal digits, ignoring anything after it.  `none` models a thrown
exception: `std::invalid_argument` when no digits were read,
`std::out_of_range` when the value does not fit in `int`.  Both exceptions
are caught by the loader and lead to the line being skipped. -/
def stoi (s : String) : Option Int :=
  let cs := s.data.dropWhile isSpaceChar
  let sr := splitSign cs
  let digits := sr.2.takeWhile Char.isDigit
  if digits = [] then none
  else
    let mag : Int := (digitsToNat digits : Nat)
    let v : Int := if sr.1 then -mag else mag
    if v < intMin ∨ intMax < v then none else some v

/-- One iteration of the loader's read loop (ProjectUtils.h:109-120): a line
that parses is appended to the dataset, a line on which `std::stoi` throws
is skipped (with a warning on `stderr`, which the model drops). -/
def parseLineInto (dataset : List Int) (line : String) : List Int :=
  match stoi line with
  | some value => dataset ++ [value]
  | none => dataset

/-- `std::unique` on a list: collapse runs of equal adjacent elements
(ProjectUtils.h:134-136 applies it after sorting and erases the tail). -/
def uniqueAdjacent : List Int → List Int
  | [] => []
  | [x] => [x]
  | x :: y :: rest =>
    if x = y then uniqueAdjacent (x :: rest) else x :: uniqueAdjacent (y :: rest)
termination_by l => l.length

/-- `ProjectUtils::loadAndSortDatasetFromFile` (ProjectUtils.h:98-141).
The file system is abstracted: `file = none` models "the file could not be
opened", `file = some lines` models a successfully opened file with those
lines.  The by-reference `dataset` is state-passed: the result is
`(return value, dataset after the call)`.  Note the source clears the
dataset first (line 99), before even attempting to open the file.
`std::sort` is modelled as a sort by `≤` (insertion sort; the sorted
permutation of an integer list is unique, so the model does not depend on
the choice of sorting algorithm). -/
def loadAndSortDatasetFromFile (dataset : List Int) (file : Option (List String)) :
    Bool × List Int :=
  let dataset := ([] : List Int)
  match file with
  | none => (false, dataset)
  | some lines =>
    let dataset := lines.foldl parseLineInto dataset
    if dataset = [] then (false, dataset)
    else
      let dataset := List.insertionSort (· ≤ ·) dataset
      let dataset := uniqueAdjacent dataset
      (true, dataset)

/-- The order the comparator at main.cpp:119-126 sorts by: ascending absolute
difference to `target`, ties broken by ascending value.  (The C++ comparator
is the strict part of this order; `std::sort` leaves the range sorted by the
reflexive closure, which is this relation.) -/
def closerLe (target a b : Int) : Prop :=
  |a - target| < |b - target| ∨ (|a - target| = |b - target| ∧ a ≤ b)

instance (target a b : Int) : Decidable (closerLe target a b) := by
  unfold closerLe
  infer_instance

instance (target : Int) : IsTotal Int (closerLe target) where
  total a b := by
    unfold closerLe
    omega

instance (target : Int) : IsTrans Int (closerLe target) where
  trans a b c hab hbc := by
    unfold closerLe at hab hbc ⊢
    omega

/-- The fill loop at main.cpp:103-114: walk the first `needed` elements of
the dataset (the loop bound `i < needed && i < dataset.size()` is the
`List.take` below) and append each value not already collected. -/
def fillLoop (acc : List Int) : List Int → List Int
  | [] => acc
  | x :: xs => if x ∈ acc then fillLoop acc xs else fillLoop (acc ++ [x]) xs

/-- The window-index arithmetic of `findClosestValues` (main.cpp:64-85):
the initial 5-before/4-after window around the insertion point `cp`, the two
boundary adjustments, and the two final clamps, on C++ `int` values. -/
def windowBounds (n cp : Int) : Int × Int :=
  let window_start : Int := max 0 (cp - 5)
  let window_end : Int := min (n - 1) (cp + 4)
  let window_start := if window_end - window_start + 1 < 10 then max 0 (n - 10) else window_start
  let window_end := if window_end - window_start + 1 < 10 then min (n - 1) 9 else window_end
  let window_start := max 0 window_start
  let window_end := min (n - 1) window_end
  (window_start, window_end)

/-- The collection loop of `findClosestValues` (main.cpp:87-97): push
`dataset[i]` for `i` from `window_start` to `window_end`, stopping once 10
values are collected (the `take 10`). -/
def collectedList (dataset : List Int) (target : Int) : List Int :=
  let wb := windowBounds (dataset.length : Int)
    ((dataset.findIdx (fun x => target ≤ x) : Int))
  ((List.range' wb.1.toNat (wb.2 + 1 - wb.1).toNat).map
    (fun i => dataset.getD i 0)).take 10

/-- The contents of `closest_values` right before the final sort in
`findClosestValues`: the collected window, the `> 10` trim (main.cpp:94-97),
and the fill-up pass (main.cpp:99-115). -/
def preList (dataset : List Int) (target : Int) : List Int :=
  let closest_values := collectedList dataset target
  let closest_values :=
    if 10 < closest_values.length then closest_values.take 10 else closest_values
  if closest_values.length < 10 ∧ closest_values.length < dataset.length then
    fillLoop closest_values (dataset.take (10 - closest_values.length))
  else closest_values

/-- `findClosestValues` (main.cpp:52-134).  `std::lower_bound` on the sorted
dataset returns the first position whose value is `≥ target`, i.e. the index
`List.findIdx (target ≤ ·)`; the rest follows the source line by line:
the window arithmetic (`windowBounds`), the collection loop capped at 10
values and the trim and fill-up pass (`collectedList`, `preList`), the sort
by distance-then-value, and the final trim. -/
def findClosestValues (dataset : List Int) (target : Int) : List Int :=
  if dataset.isEmpty then []
  else
    let closest_values := List.insertionSort (closerLe target) (preList dataset target)
    if 10 < closest_values.length then closest_values.take 10 else closest_values

/-- Result record of `measureSearchTime` (ProjectUtils.h:249-256).  The two
clock reads are abstracted as given microsecond samples; `dataset_after` and
`target_after` are the post-call values of the by-reference parameters, and
`invocation_count` how many times the harness applied `search_func`. -/
structure MeasureResult where
  duration_us : Int
  result_index : Int
  dataset_after : List Int
  target_after : Int
  invocation_count : Nat

/-- A single application of the search function, instrumented with an
invocation counter. -/
def callCounted (search_func : List Int → Int → Int) (arr : List Int) (t : Int)
    (calls : Nat) : Int × Nat :=
  (search_func arr t, calls + 1)

/-- `ProjectUtils::measureSearchTime` (ProjectUtils.h:249-256): read the
clock, run the search once storing its value in `result_index`, read the
clock again, return the elapsed microseconds. -/
def measureSearchTime (search_func : List Int → Int → Int) (dataset : List Int)
    (target : Int) (clock_start clock_end : Int) : MeasureResult :=
  let r := callCounted search_func dataset target 0
  { duration_us := clock_end - clock_start
    result_index := r.1
    dataset_after := dataset
    target_after := target
    invocation_count := r.2 }

/-! ### Basic facts about the embedding -/

theorem getN_eq_some {arr : List Int} {i : Nat} (h : i < arr.length) :
    getN arr i = some arr[i] := by
  simp [getN, List.getElem?_eq_getElem h]

theorem getI_eq_some {arr : List Int} {i : Int} (h0 : 0 ≤ i) (h : i.toNat < arr.length) :
    getI arr i = some arr[i.toNat] := by
  simp [getI, h0, List.getElem?_eq_getElem h]

/-- Strictly increasing lists: indices reflect order. -/
theorem pairwise_getElem_lt {arr : List Int} (hst : arr.Pairwise (· < ·))
    {i j : Nat} (hi : i < arr.length) (hj : j < arr.length) (hij : i < j) :
    arr[i] < arr[j] := by
  have := List.pairwise_iff_get.mp hst ⟨i, hi⟩ ⟨j, hj⟩ hij
  simpa using this

theorem pairwise_getElem_le {arr : List Int} (hst : arr.Pairwise (· < ·))
    {i j : Nat} (hi : i < arr.length) (hj : j < arr.length) (hij : i ≤ j) :
    arr[i] ≤ arr[j] := by
  rcases Nat.lt_or_ge i j with h | h
  · exact le_of_lt (pairwise_getElem_lt hst hi hj h)
  · have : i = j := le_antisymm hij h
    subst this
    exact le_rfl

theorem pairwise_nodup {arr : List Int} (hst : arr.Pairwise (· < ·)) : arr.Nodup :=
  hst.imp (fun h => ne_of_lt h)

theorem pairwise_getElem_inj {arr : List Int} (hst : arr.Pairwise (· < ·))
    {i j : Nat} (hi : i < arr.length) (hj : j < arr.length)
    (h : arr[i] = arr[j]) : i = j := by
  rcases Nat.lt_trichotomy i j with hlt | heq | hgt
  · exact absurd h (ne_of_lt (pairwise_getElem_lt hst hi hj hlt))
  · exact heq
  · exact absurd h.symm (ne_of_lt (pairwise_getElem_lt hst hj hi hgt))

/-- In a strictly increasing integer list the values grow at least as fast as
the indices. -/
theorem pairwise_getElem_gap {arr : List Int} (hst : arr.Pairwise (· < ·)) :
    ∀ j (hj : j < arr.length) i (hi : i < arr.length), i ≤ j →
      (j : Int) - (i : Int) ≤ arr[j] - arr[i] := by
  intro j
  induction j with
  | zero =>
    intro hj i hi hij
    have : i = 0 := Nat.le_zero.mp hij
    subst this
    simp
  | succ k ih =>
    intro hj i hi hij
    rcases Nat.lt_or_ge i (k + 1) with h | h
    · have hk : k < arr.length := lt_trans (Nat.lt_succ_self k) hj
      have hik : i ≤ k := Nat.lt_succ_iff.mp h
      have h1 := ih hk i hi hik
      have h2 : arr[k] < arr[k + 1] :=
        pairwise_getElem_lt hst hk hj (Nat.lt_succ_self k)
      push_cast
      push_cast at h1
      omega
    · have : i = k + 1 := le_antisymm hij h
      subst this
      simp

/-! ### Jump search: the linear scan -/

theorem scanLoop_isSome (arr : List Int) (t : Int) (prev : Nat) :
    (scanLoop arr t prev).isSome := by
  induction prev using scanLoop.induct arr t with
  | case1 prev h heq =>
    rw [getN_eq_some h] at heq
    exact absurd heq (by simp)
  | case2 prev h a heq hlt ih =>
    rw [scanLoop]
    simp [h, heq, hlt, ih]
  | case3 prev h a heq hlt =>
    rw [scanLoop]
    simp [h, heq, hlt]
  | case4 prev h =>
    rw [scanLoop]
    simp [h]

theorem scanLoop_present {arr : List Int} {t : Int} (hst : arr.Pairwise (· < ·))
    {i : Nat} (hi : i < arr.length) (ht : arr[i] = t) (prev : Nat) :
    prev ≤ i → scanLoop arr t prev = some i := by
  induction prev using scanLoop.induct arr t with
  | case1 prev h heq =>
    rw [getN_eq_some h] at heq
    exact absurd heq (by simp)
  | case2 prev h a heq hlt ih =>
    intro hp
    have ha : a = arr[prev] := by
      rw [getN_eq_some h] at heq
      exact (Option.some.injEq _ _ ▸ heq).symm
    have hpi : prev ≠ i := by
      intro hcontra
      subst hcontra
      rw [← ha] at ht
      omega
    rw [scanLoop]
    simp only [h, if_true, heq, hlt, if_pos]
    exact ih (by omega)
  | case3 prev h a heq hlt =>
    intro hp
    have ha : a = arr[prev] := by
      rw [getN_eq_some h] at heq
      exact (Option.some.injEq _ _ ▸ heq).symm
    have hpi : prev = i := by
      rcases Nat.lt_or_ge prev i with hcase | hcase
      · have := pairwise_getElem_lt hst h hi hcase
        rw [ht, ← ha] at this
        omega
      · omega
    subst hpi
    rw [scanLoop]
    simp [h, heq, hlt]
  | case4 prev h =>
    intro hp
    omega

/-! ### Jump search: the final check -/

theorem jumpFinish_present {arr : List Int} {t : Int}
    {i : Nat} (hi : i < arr.length) (ht : arr[i] = t) :
    jumpFinish arr t i = some (i : Int) := by
  rw [jumpFinish]
  simp [hi, getN_eq_some hi, ht]

theorem jumpFinish_absent {arr : List Int} {t : Int} (habs : t ∉ arr) (p : Nat) :
    jumpFinish arr t p = some (-1) := by
  rw [jumpFinish]
  by_cases h : p < arr.length
  · have hne : ¬ arr[p] = t := by
      intro hcontra
      exact habs (hcontra ▸ List.getElem_mem h)
    simp [h, getN_eq_some h, hne]
  · simp [h]

theorem jumpFinish_isSome (arr : List Int) (t : Int) (p : Nat) :
    (jumpFinish arr t p).isSome := by
  rw [jumpFinish]
  by_cases h : p < arr.length
  · by_cases he : arr[p] = t <;> simp [h, getN_eq_some h, he]
  · simp [h]

/-! ### Jump search: the block loop -/

theorem blockLoop_present {arr : List Int} {t : Int} (hst : arr.Pairwise (· < ·))
    {i : Nat} (hi : i < arr.length) (ht : arr[i] = t)
    {s : Nat} (hs : 0 < s) (prev step : Nat) :
    prev ≤ i → blockLoop arr t s hs prev step = some (i : Int) := by
  induction prev, step using blockLoop.induct arr t s hs with
  | case1 prev step h heq =>
    intro hp
    have hidx : min step arr.length - 1 < arr.length := by omega
    rw [getN_eq_some hidx] at heq
    exact absurd heq (by simp)
  | case2 prev step h a heq hlt hend =>
    intro hp
    have hidx : min step arr.length - 1 < arr.length := by omega
    have ha : a = arr[min step arr.length - 1] := by
      rw [getN_eq_some hidx] at heq
      exact (Option.some.injEq _ _ ▸ heq).symm
    have hidx2 : min step arr.length - 1 = arr.length - 1 := by omega
    have hle : arr[i] ≤ arr[min step arr.length - 1] := by
      apply pairwise_getElem_le hst hi hidx
      omega
    rw [ht, ← ha] at hle
    omega
  | case3 prev step h a heq hlt hend ih =>
    intro hp
    have hidx : min step arr.length - 1 < arr.length := by omega
    have ha : a = arr[min step arr.length - 1] := by
      rw [getN_eq_some hidx] at heq
      exact (Option.some.injEq _ _ ▸ heq).symm
    have hstep : step ≤ i := by
      by_contra hcon
      have hle : arr[i] ≤ arr[min step arr.length - 1] := by
        apply pairwise_getElem_le hst hi hidx
        omega
      rw [ht, ← ha] at hle
      omega
    rw [blockLoop]
    simp only [h, if_true, heq, hlt, if_pos, hend, dif_neg, not_false_iff]
    exact ih hstep
  | case4 prev step h a heq hlt =>
    intro hp
    rw [blockLoop]
    simp only [h, if_true, heq, hlt, if_neg, if_false]
    rw [scanLoop_present hst hi ht prev hp]
    exact jumpFinish_present hi ht
  | case5 prev step h a heq hlt p heq2 =>
    intro hp
    have heq3 := scanLoop_present hst hi ht prev hp
    rw [heq2] at heq3
    have hpi : p = i := Option.some_inj.mp heq3
    subst hpi
    rw [blockLoop]
    simp only [h, if_true, heq, hlt, if_neg, if_false]
    rw [heq2]
    exact jumpFinish_present hi ht
  | case6 prev step h heq =>
    intro hp
    omega
  | case7 prev step h p heq =>
    intro hp
    omega

theorem blockLoop_absent {arr : List Int} {t : Int} (habs : t ∉ arr)
    {s : Nat} (hs : 0 < s) (prev step : Nat) :
    blockLoop arr t s hs prev step = some (-1) := by
  induction prev, step using blockLoop.induct arr t s hs with
  | case1 prev step h heq =>
    have hidx : min step arr.length - 1 < arr.length := by omega
    rw [getN_eq_some hidx] at heq
    exact absurd heq (by simp)
  | case2 prev step h a heq hlt hend =>
    rw [blockLoop]
    simp only [h, if_true, heq, hlt, if_pos, hend, dite_true]
  | case3 prev step h a heq hlt hend ih =>
    rw [blockLoop]
    simp only [h, if_true, heq, hlt, if_pos, hend, dif_neg, not_false_iff]
    exact ih
  | case4 prev step h a heq hlt =>
    have hsome := scanLoop_isSome arr t prev
    rcases Option.isSome_iff_exists.mp hsome with ⟨p, hp⟩
    rw [blockLoop]
    simp only [h, if_true, heq, hlt, if_neg, if_false]
    rw [hp]
    exact jumpFinish_absent habs p
  | case5 prev step h a heq hlt p heq2 =>
    rw [blockLoop]
    simp only [h, if_true, heq, hlt, if_neg, if_false]
    rw [heq2]
    exact jumpFinish_absent habs p
  | case6 prev step h heq =>
    have hsome := scanLoop_isSome arr t prev
    rw [heq] at hsome
    exact absurd hsome (by simp)
  | case7 prev step h p heq =>
    rw [blockLoop]
    simp only [h, if_neg, if_false]
    rw [heq]
    exact jumpFinish_absent habs p

theorem blockLoop_isSome (arr : List Int) (t : Int)
    {s : Nat} (hs : 0 < s) (prev step : Nat) :
    (blockLoop arr t s hs prev step).isSome := by
  induction prev, step using blockLoop.induct arr t s hs with
  | case1 prev step h heq =>
    have hidx : min step arr.length - 1 < arr.length := by omega
    rw [getN_eq_some hidx] at heq
    exact absurd heq (by simp)
  | case2 prev step h a heq hlt hend =>
    rw [blockLoop]
    simp only [h, if_true, heq, hlt, if_pos, hend, dite_true]
    rfl
  | case3 prev step h a heq hlt hend ih =>
    rw [blockLoop]
    simp only [h, if_true, heq, hlt, if_pos, hend, dif_neg, not_false_iff]
    exact ih
  | case4 prev step h a heq hlt =>
    have hsome := scanLoop_isSome arr t prev
    rcases Option.isSome_iff_exists.mp hsome with ⟨p, hp⟩
    rw [blockLoop]
    simp only [h, if_true, heq, hlt, if_neg, if_false]
    rw [hp]
    exact jumpFinish_isSome arr t p
  | case5 prev step h a heq hlt p heq2 =>
    rw [blockLoop]
    simp only [h, if_true, heq, hlt, if_neg, if_false]
    rw [heq2]
    exact jumpFinish_isSome arr t p
  | case6 prev step h heq =>
    have hsome := scanLoop_isSome arr t prev
    rw [heq] at hsome
    exact absurd hsome (by simp)
  | case7 prev step h p heq =>
    rw [blockLoop]
    simp only [h, if_neg, if_false]
    rw [heq]
    exact jumpFinish_isSome arr t p

/-! ### Jump search: top level -/

theorem jumpSearch_present {arr : List Int} {t : Int} (hst : arr.Pairwise (· < ·))
    {i : Nat} (hi : i < arr.length) (ht : arr[i] = t) :
    jumpSearch arr t = some (i : Int) := by
  have hn : ¬ arr.length = 0 := by omega
  rw [jumpSearch]
  simp only [hn, dif_neg, not_false_iff]
  exact blockLoop_present hst hi ht _ 0 (Nat.sqrt arr.length) (Nat.zero_le i)

theorem jumpSearch_absent {arr : List Int} {t : Int} (habs : t ∉ arr) :
    jumpSearch arr t = some (-1) := by
  rw [jumpSearch]
  by_cases hn : arr.length = 0
  · simp [hn]
  · simp only [hn, dif_neg, not_false_iff]
    exact blockLoop_absent habs _ 0 (Nat.sqrt arr.length)

theorem jumpSearch_isSome (arr : List Int) (t : Int) :
    (jumpSearch arr t).isSome := by
  rw [jumpSearch]
  by_cases hn : arr.length = 0
  · simp [hn]
  · simp only [hn, dif_neg, not_false_iff]
    exact blockLoop_isSome arr t _ 0 (Nat.sqrt arr.length)

/-! ### Interpolation search -/

/-- On a strictly increasing list, in the situation the loop evaluates it
(`low < high`, `arr[low] ≤ target ≤ arr[high]`), the probe the source
computes always lands inside `[low, high]`: the truncated quotient
`(high - low) / (arr[high] - arr[low])` is `0` or `1`. -/
theorem probePos_range {arr : List Int} (hst : arr.Pairwise (· < ·))
    {low high t : Int}
    (h0 : 0 ≤ low) (hlh : low < high) (hh : high.toNat < arr.length)
    (hl : low.toNat < arr.length)
    (hge : arr[low.toNat] ≤ t) (hle : t ≤ arr[high.toNat]) :
    low ≤ probePos low high (arr[low.toNat]) (arr[high.toNat]) t ∧
      probePos low high (arr[low.toNat]) (arr[high.toNat]) t ≤ high := by
  have hgap : (high.toNat : Int) - (low.toNat : Int) ≤ arr[high.toNat] - arr[low.toNat] :=
    pairwise_getElem_gap hst high.toNat hh low.toNat hl (by omega)
  have hgap2 : high - low ≤ arr[high.toNat] - arr[low.toNat] := by omega
  have hq : (high - low).tdiv (arr[high.toNat] - arr[low.toNat]) = 0 ∨
      ((high - low).tdiv (arr[high.toNat] - arr[low.toNat]) = 1 ∧
        high - low = arr[high.toNat] - arr[low.toNat]) := by
    rcases lt_or_eq_of_le hgap2 with hcase | hcase
    · left
      rw [Int.tdiv_eq_ediv (by omega) (by omega)]
      exact Int.ediv_eq_zero_of_lt (by omega) hcase
    · right
      exact ⟨hcase ▸ Int.tdiv_self (by omega), hcase⟩
  unfold probePos
  rcases hq with h | ⟨h, hEq⟩ <;> rw [h]
  · omega
  · omega

theorem interpLoop_present {arr : List Int} {t : Int} (hst : arr.Pairwise (· < ·))
    {i : Nat} (hi : i < arr.length) (ht : arr[i] = t) :
    ∀ (low high : Int), 0 ≤ low → low ≤ (i : Int) → (i : Int) ≤ high →
      high < (arr.length : Int) → interpLoop arr t low high = some (i : Int) := by
  have key : ∀ (m : Nat) (low high : Int), (high + 1 - low).toNat ≤ m →
      0 ≤ low → low ≤ (i : Int) → (i : Int) ≤ high → high < (arr.length : Int) →
      interpLoop arr t low high = some (i : Int) := by
    intro m
    induction m with
    | zero =>
      intro low high hm h0 h1 h2 h3
      omega
    | succ m ih =>
      intro low high hm h0 h1 h2 h3
      have hlh : low ≤ high := by omega
      have hll : low.toNat < arr.length := by omega
      have hhh : high.toNat < arr.length := by omega
      rw [interpLoop, if_pos hlh]
      simp only [getI_eq_some h0 hll]
      have hgelow : t ≥ arr[low.toNat] := by
        rw [← ht]
        exact pairwise_getElem_le hst hll hi (by omega)
      rw [if_pos hgelow]
      simp only [getI_eq_some (show (0:Int) ≤ high by omega) hhh]
      have hlehigh : t ≤ arr[high.toNat] := by
        rw [← ht]
        exact pairwise_getElem_le hst hi hhh (by omega)
      rw [if_pos hlehigh]
      by_cases hcase : low = high
      · rw [if_pos hcase]
        have hil : i = low.toNat := by omega
        have hfound : arr[low.toNat] = t := by
          simp only [← hil]
          exact ht
        rw [if_pos hfound]
        have : low = (i : Int) := by omega
        rw [this]
      · rw [if_neg hcase]
        have hrange := probePos_range hst h0 (by omega) hhh hll hgelow hlehigh
        rw [dif_neg (by omega)]
        have hP0 : (0:Int) ≤ probePos low high (arr[low.toNat]) (arr[high.toNat]) t := by
          omega
        have hPl : (probePos low high (arr[low.toNat]) (arr[high.toNat]) t).toNat <
            arr.length := by
          omega
        simp only [getI_eq_some hP0 hPl]
        by_cases hfound :
            arr[(probePos low high (arr[low.toNat]) (arr[high.toNat]) t).toNat] = t
        · rw [if_pos hfound]
          have hPi : (probePos low high (arr[low.toNat]) (arr[high.toNat]) t).toNat = i :=
            pairwise_getElem_inj hst hPl hi (by rw [hfound, ht])
          have : probePos low high (arr[low.toNat]) (arr[high.toNat]) t = (i : Int) := by
            omega
          rw [this]
        · rw [if_neg hfound]
          by_cases hlt2 :
              arr[(probePos low high (arr[low.toNat]) (arr[high.toNat]) t).toNat] < t
          · rw [if_pos hlt2]
            have hPi : (probePos low high (arr[low.toNat]) (arr[high.toNat]) t).toNat < i := by
              by_contra hcon
              have := pairwise_getElem_le hst hi hPl (by omega)
              rw [ht] at this
              omega
            exact ih _ high (by omega) (by omega) (by omega) (by omega) h3
          · rw [if_neg hlt2]
            have hPi : i < (probePos low high (arr[low.toNat]) (arr[high.toNat]) t).toNat := by
              by_contra hcon
              have := pairwise_getElem_le hst hPl hi (by omega)
              rw [ht] at this
              omega
            exact ih low _ (by omega) h0 h1 (by omega) (by omega)
  intro low high h0 h1 h2 h3
  exact key ((high + 1 - low).toNat) low high le_rfl h0 h1 h2 h3

theorem interpLoop_absent {arr : List Int} {t : Int} (habs : t ∉ arr) :
    ∀ (low high : Int), 0 ≤ low → high < (arr.length : Int) →
      interpLoop arr t low high = some (-1) := by
  have key : ∀ (m : Nat) (low high : Int), (high + 1 - low).toNat ≤ m →
      0 ≤ low → high < (arr.length : Int) →
      interpLoop arr t low high = some (-1) := by
    intro m
    induction m with
    | zero =>
      intro low high hm h0 h3
      rw [interpLoop, if_neg (by omega)]
    | succ m ih =>
      intro low high hm h0 h3
      by_cases hlh : low ≤ high
      · have hll : low.toNat < arr.length := by omega
        have hhh : high.toNat < arr.length := by omega
        rw [interpLoop, if_pos hlh]
        simp only [getI_eq_some h0 hll]
        by_cases hgelow : t ≥ arr[low.toNat]
        · rw [if_pos hgelow]
          simp only [getI_eq_some (show (0:Int) ≤ high by omega) hhh]
          by_cases hlehigh : t ≤ arr[high.toNat]
          · rw [if_pos hlehigh]
            by_cases hcase : low = high
            · rw [if_pos hcase]
              have hne : ¬ arr[low.toNat] = t := by
                intro hcontra
                exact habs (hcontra ▸ List.getElem_mem hll)
              rw [if_neg hne]
            · rw [if_neg hcase]
              by_cases hout :
                  probePos low high (arr[low.toNat]) (arr[high.toNat]) t < low ∨
                    probePos low high (arr[low.toNat]) (arr[high.toNat]) t > high
              · rw [dif_pos hout]
              · rw [dif_neg hout]
                have hP0 : (0:Int) ≤ probePos low high (arr[low.toNat]) (arr[high.toNat]) t := by
                  omega
                have hPl : (probePos low high (arr[low.toNat]) (arr[high.toNat]) t).toNat <
                    arr.length := by
                  omega
                simp only [getI_eq_some hP0 hPl]
                have hne :
                    ¬ arr[(probePos low high (arr[low.toNat]) (arr[high.toNat]) t).toNat] = t := by
                  intro hcontra
                  exact habs (hcontra ▸ List.getElem_mem hPl)
                rw [if_neg hne]
                by_cases hlt2 :
                    arr[(probePos low high (arr[low.toNat]) (arr[high.toNat]) t).toNat] < t
                · rw [if_pos hlt2]
                  exact ih _ high (by omega) (by omega) h3
                · rw [if_neg hlt2]
                  exact ih low _ (by omega) h0 (by omega)
          · rw [if_neg hlehigh]
        · rw [if_neg hgelow]
      · rw [interpLoop, if_neg hlh]
  intro low high h0 h3
  exact key ((high + 1 - low).toNat) low high le_rfl h0 h3

theorem interpLoop_isSome (arr : List Int) (t : Int) :
    ∀ (low high : Int), 0 ≤ low → high < (arr.length : Int) →
      (interpLoop arr t low high).isSome := by
  have key : ∀ (m : Nat) (low high : Int), (high + 1 - low).toNat ≤ m →
      0 ≤ low → high < (arr.length : Int) →
      (interpLoop arr t low high).isSome := by
    intro m
    induction m with
    | zero =>
      intro low high hm h0 h3
      rw [interpLoop, if_neg (by omega)]
      rfl
    | succ m ih =>
      intro low high hm h0 h3
      by_cases hlh : low ≤ high
      · have hll : low.toNat < arr.length := by omega
        have hhh : high.toNat < arr.length := by omega
        rw [interpLoop, if_pos hlh]
        simp only [getI_eq_some h0 hll]
        by_cases hgelow : t ≥ arr[low.toNat]
        · rw [if_pos hgelow]
          simp only [getI_eq_some (show (0:Int) ≤ high by omega) hhh]
          by_cases hlehigh : t ≤ arr[high.toNat]
          · rw [if_pos hlehigh]
            by_cases hcase : low = high
            · rw [if_pos hcase]
              by_cases hfound : arr[low.toNat] = t
              · rw [if_pos hfound]
                rfl
              · rw [if_neg hfound]
                rfl
            · rw [if_neg hcase]
              by_cases hout :
                  probePos low high (arr[low.toNat]) (arr[high.toNat]) t < low ∨
                    probePos low high (arr[low.toNat]) (arr[high.toNat]) t > high
              · rw [dif_pos hout]
                rfl
              · rw [dif_neg hout]
                have hP0 : (0:Int) ≤ probePos low high (arr[low.toNat]) (arr[high.toNat]) t := by
                  omega
                have hPl : (probePos low high (arr[low.toNat]) (arr[high.toNat]) t).toNat <
                    arr.length := by
                  omega
                simp only [getI_eq_some hP0 hPl]
                by_cases hfound :
                    arr[(probePos low high (arr[low.toNat]) (arr[high.toNat]) t).toNat] = t
                · rw [if_pos hfound]
                  rfl
                · rw [if_neg hfound]
                  by_cases hlt2 :
                      arr[(probePos low high (arr[low.toNat]) (arr[high.toNat]) t).toNat] < t
                  · rw [if_pos hlt2]
                    exact ih _ high (by omega) (by omega) h3
                  · rw [if_neg hlt2]
                    exact ih low _ (by omega) h0 (by omega)
          · rw [if_neg hlehigh]
            rfl
        · rw [if_neg hgelow]
          rfl
      · rw [interpLoop, if_neg hlh]
        rfl
  intro low high h0 h3
  exact key ((high + 1 - low).toNat) low high le_rfl h0 h3

/-! ### Interpolation search: top level -/

theorem interpolationSearch_present {arr : List Int} {t : Int}
    (hst : arr.Pairwise (· < ·)) {i : Nat} (hi : i < arr.length) (ht : arr[i] = t) :
    interpolationSearch arr t = some (i : Int) := by
  rw [interpolationSearch]
  exact interpLoop_present hst hi ht 0 ((arr.length : Int) - 1)
    le_rfl (by omega) (by omega) (by omega)

theorem interpolationSearch_absent {arr : List Int} {t : Int} (habs : t ∉ arr) :
    interpolationSearch arr t = some (-1) := by
  rw [interpolationSearch]
  exact interpLoop_absent habs 0 ((arr.length : Int) - 1) le_rfl (by omega)

theorem interpolationSearch_isSome (arr : List Int) (t : Int) :
    (interpolationSearch arr t).isSome := by
  rw [interpolationSearch]
  exact interpLoop_isSome arr t 0 ((arr.length : Int) - 1) le_rfl (by omega)

/-! ### The closest-values helper -/

theorem fillLoop_append_of_disjoint :
    ∀ (l acc : List Int), l.Nodup → (∀ x ∈ l, x ∉ acc) →
      fillLoop acc l = acc ++ l := by
  intro l
  induction l with
  | nil => intro acc _ _; simp [fillLoop]
  | cons x xs ih =>
    intro acc hnd hdisj
    have hx : x ∉ acc := hdisj x (by simp)
    rw [fillLoop, if_neg hx]
    rw [ih (acc ++ [x]) hnd.of_cons]
    · simp
    · intro y hy
      simp only [List.mem_append, List.mem_singleton]
      rintro (hc | rfl)
      · exact hdisj y (by simp [hy]) hc
      · exact (List.nodup_cons.mp hnd).1 hy

theorem fillLoop_acc_subset : ∀ (l acc : List Int), ∀ x ∈ acc, x ∈ fillLoop acc l := by
  intro l
  induction l with
  | nil => intro acc x hx; simpa [fillLoop] using hx
  | cons y ys ih =>
    intro acc x hx
    rw [fillLoop]
    by_cases hy : y ∈ acc
    · rw [if_pos hy]
      exact ih acc x hx
    · rw [if_neg hy]
      exact ih (acc ++ [y]) x (by simp [hx])

/-- The first index at which a sorted duplicate-free list holds `target`
is exactly the insertion point `std::lower_bound` finds. -/
theorem findIdx_of_mem_sorted {dataset : List Int} (hst : dataset.Pairwise (· < ·))
    {target : Int} (hmem : target ∈ dataset) :
    ∃ hcp : dataset.findIdx (fun x => target ≤ x) < dataset.length,
      dataset[dataset.findIdx (fun x => target ≤ x)] = target := by
  rcases List.mem_iff_getElem.mp hmem with ⟨i, hi, hget⟩
  have hcp : dataset.findIdx (fun x => target ≤ x) < dataset.length := by
    apply List.findIdx_lt_length_of_exists
    exact ⟨target, hmem, by simp⟩
  refine ⟨hcp, ?_⟩
  have hub : target ≤ dataset[dataset.findIdx (fun x => target ≤ x)] := by
    have := @List.findIdx_getElem Int (fun x => target ≤ x) dataset hcp
    simpa using this
  have hcple : dataset.findIdx (fun x => target ≤ x) ≤ i := by
    by_contra hcon
    have := @List.not_of_lt_findIdx Int (fun x => target ≤ x) dataset i (by omega)
    simp only [hget] at this
    simp at this
  have hle : dataset[dataset.findIdx (fun x => target ≤ x)] ≤ dataset[i] :=
    pairwise_getElem_le hst hcp hi hcple
  omega

/-- Exhaustive description of the window `windowBounds` produces, for every
insertion point `0 ≤ cp ≤ n` of a non-empty dataset. -/
theorem windowBounds_spec (n cp : Int) (hn : 1 ≤ n) (hcp0 : 0 ≤ cp) (hcpn : cp ≤ n) :
    (n ≤ 10 ∧ windowBounds n cp = (0, n - 1)) ∨
    (10 < n ∧ 5 ≤ cp ∧ cp + 5 ≤ n ∧ windowBounds n cp = (cp - 5, cp + 4)) ∨
    (10 < n ∧ n - 5 < cp ∧ windowBounds n cp = (n - 10, n - 1)) ∨
    (10 < n ∧ cp < 5 ∧ windowBounds n cp = (n - 10, 9)) := by
  rw [windowBounds]
  by_cases h10 : n ≤ 10
  · left
    refine ⟨h10, ?_⟩
    by_cases hc1 : min (n - 1) (cp + 4) - max 0 (cp - 5) + 1 < 10
    · simp only [if_pos hc1]
      by_cases hc2 : min (n - 1) (cp + 4) - max 0 (n - 10) + 1 < 10
      · simp only [if_pos hc2, Prod.mk.injEq]
        omega
      · simp only [if_neg hc2, Prod.mk.injEq]
        omega
    · simp only [if_neg hc1]
      by_cases hc2 : min (n - 1) (cp + 4) - max 0 (cp - 5) + 1 < 10
      · exact absurd hc2 hc1
      · simp only [if_neg hc2, Prod.mk.injEq]
        omega
  · right
    by_cases hcp5 : cp < 5
    · right; right
      refine ⟨by omega, hcp5, ?_⟩
      have hc1 : min (n - 1) (cp + 4) - max 0 (cp - 5) + 1 < 10 := by omega
      simp only [if_pos hc1]
      have hc2 : min (n - 1) (cp + 4) - max 0 (n - 10) + 1 < 10 := by omega
      simp only [if_pos hc2, Prod.mk.injEq]
      omega
    · by_cases hhigh : cp + 5 ≤ n
      · left
        refine ⟨by omega, by omega, hhigh, ?_⟩
        have hc1 : ¬ (min (n - 1) (cp + 4) - max 0 (cp - 5) + 1 < 10) := by omega
        simp only [if_neg hc1, Prod.mk.injEq]
        omega
      · right; left
        refine ⟨by omega, by omega, ?_⟩
        have hc1 : min (n - 1) (cp + 4) - max 0 (cp - 5) + 1 < 10 := by omega
        simp only [if_pos hc1]
        have hc2 : ¬ (min (n - 1) (cp + 4) - max 0 (n - 10) + 1 < 10) := by omega
        simp only [if_neg hc2, Prod.mk.injEq]
        omega

theorem windowMap_subset (dataset : List Int) (a cnt : Nat)
    (hbound : a + cnt ≤ dataset.length) :
    ∀ x ∈ (List.range' a cnt).map (fun i => dataset.getD i 0), x ∈ dataset := by
  intro x hx
  rcases List.mem_map.mp hx with ⟨i, hi, rfl⟩
  have hia := List.mem_range'_1.mp hi
  have hilen : i < dataset.length := by omega
  rw [List.getD_eq_getElem dataset 0 hilen]
  exact List.getElem_mem hilen

theorem windowMap_nodup {dataset : List Int} (hst : dataset.Pairwise (· < ·))
    (a cnt : Nat) (hbound : a + cnt ≤ dataset.length) :
    ((List.range' a cnt).map (fun i => dataset.getD i 0)).Nodup := by
  apply List.Nodup.map_on
  · intro i hi j hj hij
    have hia := List.mem_range'_1.mp hi
    have hja := List.mem_range'_1.mp hj
    have hilen : i < dataset.length := by omega
    have hjlen : j < dataset.length := by omega
    rw [List.getD_eq_getElem dataset 0 hilen, List.getD_eq_getElem dataset 0 hjlen] at hij
    exact pairwise_getElem_inj hst hilen hjlen hij
  · exact List.nodup_range' a cnt

theorem windowMap_mem {dataset : List Int} (a cnt i : Nat)
    (hia : a ≤ i) (hicnt : i < a + cnt) (hilen : i < dataset.length) :
    dataset[i] ∈ (List.range' a cnt).map (fun i => dataset.getD i 0) :=
  List.mem_map.mpr ⟨i, List.mem_range'_1.mpr ⟨hia, hicnt⟩, List.getD_eq_getElem dataset 0 hilen⟩

theorem take_not_mem_windowMap {dataset : List Int} (hst : dataset.Pairwise (· < ·))
    {k a cnt : Nat} (hka : k ≤ a) (hbound : a + cnt ≤ dataset.length) :
    ∀ x ∈ dataset.take k, x ∉ (List.range' a cnt).map (fun i => dataset.getD i 0) := by
  intro x hx hmem
  rcases List.mem_iff_getElem.mp hx with ⟨i, hi, hgi⟩
  have hi2 := hi
  rw [List.length_take] at hi2
  have hilen : i < dataset.length := by omega
  have hik : i < k := by omega
  rw [List.getElem_take] at hgi
  rcases List.mem_map.mp hmem with ⟨j, hj, hgj⟩
  have hja := List.mem_range'_1.mp hj
  have hjlen : j < dataset.length := by omega
  rw [List.getD_eq_getElem dataset 0 hjlen] at hgj
  have : i = j := pairwise_getElem_inj hst hilen hjlen (by rw [hgi, hgj])
  omega

theorem mem_take_of_getElem {dataset : List Int} {k i : Nat}
    (hik : i < k) (hilen : i < dataset.length) :
    dataset[i] ∈ dataset.take k := by
  apply List.mem_iff_getElem.mpr
  refine ⟨i, ?_, ?_⟩
  · rw [List.length_take]
    omega
  · rw [List.getElem_take]

/-- When the collection loop gathered at most 10 values (always the case),
the `> 10` trim at main.cpp:94-97 is the identity and `preList` is the
collected window plus, possibly, the fill-up pass. -/
theorem preList_of_short (dataset : List Int) (target : Int)
    (h : (collectedList dataset target).length ≤ 10) :
    preList dataset target =
      if (collectedList dataset target).length < 10 ∧
          (collectedList dataset target).length < dataset.length then
        fillLoop (collectedList dataset target)
          (dataset.take (10 - (collectedList dataset target).length))
      else collectedList dataset target := by
  simp only [preList]
  have h1 : ¬ 10 < (collectedList dataset target).length := by omega
  rw [if_neg h1]

theorem preList_spec (dataset : List Int) (target : Int)
    (hst : dataset.Pairwise (· < ·)) (hne : dataset ≠ []) :
    (preList dataset target).length = min 10 dataset.length ∧
    (preList dataset target).Nodup ∧
    (∀ x ∈ preList dataset target, x ∈ dataset) ∧
    (target ∈ dataset → target ∈ preList dataset target) := by
  have hn1 : 1 ≤ dataset.length := by
    cases dataset
    · exact absurd rfl hne
    · simp
  have hcpn : dataset.findIdx (fun x => target ≤ x) ≤ dataset.length :=
    List.findIdx_le_length _
  have hcpmem : target ∈ dataset →
      ∃ hcp : dataset.findIdx (fun x => target ≤ x) < dataset.length,
        dataset[dataset.findIdx (fun x => target ≤ x)] = target :=
    fun hmem => findIdx_of_mem_sorted hst hmem
  rcases windowBounds_spec (dataset.length : Int) (dataset.findIdx (fun x => target ≤ x) : Int)
      (by omega) (by omega) (by omega) with
    ⟨h10, hwb⟩ | ⟨h10, hcp5, hcpn5, hwb⟩ | ⟨h10, hcpgt, hwb⟩ | ⟨h10, hcp5, hwb⟩
  -- Case A: n ≤ 10, window [0, n-1], the window is the whole dataset.
  · have hcnt : (((dataset.length : Int) - 1) + 1 - (0 : Int)).toNat = dataset.length := by
      omega
    have hcol : collectedList dataset target =
        (List.range' 0 dataset.length).map (fun i => dataset.getD i 0) := by
      simp only [collectedList, hwb, hcnt, Int.toNat_zero]
      exact List.take_of_length_le (by simp only [List.length_map, List.length_range']; omega)
    have hmaplen : ((List.range' 0 dataset.length).map (fun i => dataset.getD i 0)).length =
        dataset.length := by
      simp
    have hbound : 0 + dataset.length ≤ dataset.length := by omega
    rw [preList_of_short dataset target (by rw [hcol, hmaplen]; omega), hcol]
    rw [if_neg (by rw [hmaplen]; omega)]
    refine ⟨by rw [hmaplen]; omega, windowMap_nodup hst 0 dataset.length hbound,
      windowMap_subset dataset 0 dataset.length hbound, ?_⟩
    intro hmem
    rcases hcpmem hmem with ⟨hcp, hget⟩
    have := windowMap_mem 0 dataset.length (dataset.findIdx (fun x => target ≤ x))
      (by omega) (by omega) hcp
    rw [hget] at this
    exact this
  -- Case B: 10 < n, 5 ≤ cp ≤ n - 5, window [cp-5, cp+4] of exactly 10 indices.
  · have hcnt : (((dataset.findIdx (fun x => target ≤ x) : Int) + 4) + 1 -
        ((dataset.findIdx (fun x => target ≤ x) : Int) - 5)).toNat = 10 := by
      omega
    have ha : ((dataset.findIdx (fun x => target ≤ x) : Int) - 5).toNat =
        dataset.findIdx (fun x => target ≤ x) - 5 := by
      omega
    have hcol : collectedList dataset target =
        (List.range' (dataset.findIdx (fun x => target ≤ x) - 5) 10).map
          (fun i => dataset.getD i 0) := by
      simp only [collectedList, hwb, hcnt, ha]
      exact List.take_of_length_le (by simp only [List.length_map, List.length_range']; omega)
    have hmaplen : ((List.range' (dataset.findIdx (fun x => target ≤ x) - 5) 10).map
        (fun i => dataset.getD i 0)).length = 10 := by
      simp
    have hbound : (dataset.findIdx (fun x => target ≤ x) - 5) + 10 ≤ dataset.length := by
      omega
    rw [preList_of_short dataset target (by rw [hcol, hmaplen]), hcol]
    rw [if_neg (by rw [hmaplen]; omega)]
    refine ⟨by rw [hmaplen]; omega, windowMap_nodup hst _ 10 hbound,
      windowMap_subset dataset _ 10 hbound, ?_⟩
    intro hmem
    rcases hcpmem hmem with ⟨hcp, hget⟩
    have := windowMap_mem (dataset.findIdx (fun x => target ≤ x) - 5) 10
      (dataset.findIdx (fun x => target ≤ x)) (by omega) (by omega) hcp
    rw [hget] at this
    exact this
  -- Case C: 10 < n, cp > n - 5, window [n-10, n-1] of exactly 10 indices.
  · have hcnt : (((dataset.length : Int) - 1) + 1 -
        ((dataset.length : Int) - 10)).toNat = 10 := by
      omega
    have ha : ((dataset.length : Int) - 10).toNat = dataset.length - 10 := by
      omega
    have hcol : collectedList dataset target =
        (List.range' (dataset.length - 10) 10).map (fun i => dataset.getD i 0) := by
      simp only [collectedList, hwb, hcnt, ha]
      exact List.take_of_length_le (by simp only [List.length_map, List.length_range']; omega)
    have hmaplen : ((List.range' (dataset.length - 10) 10).map
        (fun i => dataset.getD i 0)).length = 10 := by
      simp
    have hbound : (dataset.length - 10) + 10 ≤ dataset.length := by omega
    rw [preList_of_short dataset target (by rw [hcol, hmaplen]), hcol]
    rw [if_neg (by rw [hmaplen]; omega)]
    refine ⟨by rw [hmaplen]; omega, windowMap_nodup hst _ 10 hbound,
      windowMap_subset dataset _ 10 hbound, ?_⟩
    intro hmem
    rcases hcpmem hmem with ⟨hcp, hget⟩
    have := windowMap_mem (dataset.length - 10) 10
      (dataset.findIdx (fun x => target ≤ x)) (by omega) (by omega) hcp
    rw [hget] at this
    exact this
  -- Case D: 10 < n, cp < 5, window [n-10, 9] (possibly empty), then the
  -- fill-up pass completes the list to 10 values with dataset[0..].
  · have hcnt : ((9 : Int) + 1 - ((dataset.length : Int) - 10)).toNat =
        20 - dataset.length := by
      omega
    have ha : ((dataset.length : Int) - 10).toNat = dataset.length - 10 := by
      omega
    have hcol : collectedList dataset target =
        (List.range' (dataset.length - 10) (20 - dataset.length)).map
          (fun i => dataset.getD i 0) := by
      simp only [collectedList, hwb, hcnt, ha]
      exact List.take_of_length_le (by simp only [List.length_map, List.length_range']; omega)
    have hmaplen : ((List.range' (dataset.length - 10) (20 - dataset.length)).map
        (fun i => dataset.getD i 0)).length = 20 - dataset.length := by
      simp
    have hbound : (dataset.length - 10) + (20 - dataset.length) ≤ dataset.length := by
      omega
    rw [preList_of_short dataset target (by rw [hcol, hmaplen]; omega), hcol]
    rw [if_pos (by rw [hmaplen]; omega)]
    rw [hmaplen]
    have hk : 10 - (20 - dataset.length) ≤ dataset.length - 10 := by omega
    have htake_nodup : (dataset.take (10 - (20 - dataset.length))).Nodup :=
      (List.take_sublist _ _).nodup (pairwise_nodup hst)
    rw [fillLoop_append_of_disjoint _ _ htake_nodup
      (take_not_mem_windowMap hst hk hbound)]
    have htakelen : (dataset.take (10 - (20 - dataset.length))).length =
        10 - (20 - dataset.length) := by
      rw [List.length_take]
      omega
    refine ⟨?_, ?_, ?_, ?_⟩
    · rw [List.length_append, hmaplen, htakelen]
      omega
    · rw [List.nodup_append]
      refine ⟨windowMap_nodup hst _ _ hbound, htake_nodup, ?_⟩
      rw [List.disjoint_right]
      exact take_not_mem_windowMap hst hk hbound
    · intro x hx
      rcases List.mem_append.mp hx with hx | hx
      · exact windowMap_subset dataset _ _ hbound x hx
      · exact (List.take_sublist _ _).subset hx
    · intro hmem
      rcases hcpmem hmem with ⟨hcp, hget⟩
      rw [List.mem_append]
      by_cases hcpwin : dataset.length - 10 ≤ dataset.findIdx (fun x => target ≤ x)
      · left
        have := windowMap_mem (dataset.length - 10) (20 - dataset.length)
          (dataset.findIdx (fun x => target ≤ x)) hcpwin (by omega) hcp
        rw [hget] at this
        exact this
      · right
        have := mem_take_of_getElem
          (show dataset.findIdx (fun x => target ≤ x) < 10 - (20 - dataset.length) by omega)
          hcp
        rw [hget] at this
        exact this

theorem findClosestValues_eq_sorted (dataset : List Int) (target : Int)
    (hst : dataset.Pairwise (· < ·)) (hne : dataset ≠ []) :
    findClosestValues dataset target =
      List.insertionSort (closerLe target) (preList dataset target) := by
  have hF : dataset.isEmpty = false := by
    cases dataset
    · exact absurd rfl hne
    · rfl
  rw [findClosestValues]
  simp only [hF, Bool.false_eq_true, if_false]
  have hlen : (List.insertionSort (closerLe target) (preList dataset target)).length =
      min 10 dataset.length := by
    rw [(List.perm_insertionSort (closerLe target) (preList dataset target)).length_eq]
    exact (preList_spec dataset target hst hne).1
  rw [if_neg (by omega)]

/-! ### The file loader -/

theorem foldl_parseLineInto (lines : List String) :
    ∀ init : List Int, lines.foldl parseLineInto init = init ++ lines.filterMap stoi := by
  induction lines with
  | nil => intro init; simp
  | cons l ls ih =>
    intro init
    simp only [List.foldl_cons, List.filterMap_cons]
    cases h : stoi l with
    | none =>
      rw [show parseLineInto init l = init by rw [parseLineInto, h]]
      exact ih init
    | some v =>
      rw [show parseLineInto init l = init ++ [v] by rw [parseLineInto, h]]
      rw [ih (init ++ [v])]
      simp

theorem uniqueAdjacent_mem : ∀ (l : List Int) (x : Int),
    x ∈ uniqueAdjacent l ↔ x ∈ l := by
  intro l
  induction l using uniqueAdjacent.induct with
  | case1 => intro x; simp [uniqueAdjacent]
  | case2 y => intro x; simp [uniqueAdjacent]
  | case3 y rest ih =>
    intro x
    rw [uniqueAdjacent, if_pos rfl]
    rw [ih x]
    simp only [List.mem_cons]
    tauto
  | case4 y z rest hne ih =>
    intro x
    rw [uniqueAdjacent, if_neg hne]
    simp only [List.mem_cons, ih x]

/-- The loader on a file that did open: parse each line with `std::stoi`
(collecting exactly the lines that parse), fail on an empty result, and
otherwise sort and remove duplicates. -/
theorem load_some (ds : List Int) (lines : List String) :
    loadAndSortDatasetFromFile ds (some lines) =
      if lines.filterMap stoi = [] then (false, [])
      else (true, uniqueAdjacent (List.insertionSort (· ≤ ·) (lines.filterMap stoi))) := by
  rw [loadAndSortDatasetFromFile]
  simp only [foldl_parseLineInto lines [], List.nil_append]
  by_cases h : lines.filterMap stoi = []
  · rw [if_pos h, if_pos h, h]
  · rw [if_neg h, if_neg h]

theorem isDigit_not_space {c : Char} (h : c.isDigit = true) : isSpaceChar c = false := by
  rw [isSpaceChar, decide_eq_false_iff_not]
  rintro (rfl | rfl | rfl | rfl | rfl | rfl) <;> exact absurd h (by decide)

theorem isDigit_ne_minus {c : Char} (h : c.isDigit = true) : c ≠ '-' := by
  rintro rfl
  exact absurd h (by decide)

theorem isDigit_ne_plus {c : Char} (h : c.isDigit = true) : c ≠ '+' := by
  rintro rfl
  exact absurd h (by decide)

theorem dropWhile_of_head_false {p : Char → Bool} :
    ∀ cs : List Char, (∀ c, cs.head? = some c → p c = false) → cs.dropWhile p = cs := by
  intro cs h
  cases cs with
  | nil => rfl
  | cons c rest =>
    rw [List.dropWhile_cons, if_neg]
    rw [h c rfl]
    simp

theorem takeWhile_append_of_all {p : Char → Bool} :
    ∀ (pre suf : List Char), (∀ c ∈ pre, p c = true) →
      (pre ++ suf).takeWhile p = pre ++ suf.takeWhile p := by
  intro pre
  induction pre with
  | nil => intro suf _; simp
  | cons c cs ih =>
    intro suf h
    have hc : p c = true := h c (by simp)
    simp only [List.cons_append, List.takeWhile_cons, hc, if_true]
    rw [ih suf (fun d hd => h d (by simp [hd]))]

theorem takeWhile_eq_nil_of_head {p : Char → Bool} (suf : List Char)
    (h : ∀ c, suf.head? = some c → p c = false) : suf.takeWhile p = [] := by
  cases suf with
  | nil => rfl
  | cons c rest =>
    rw [List.takeWhile_cons, if_neg]
    rw [h c rfl]
    simp

/-- `std::stoi` on a line that starts with a run of decimal digits followed
by non-digit garbage (e.g. `"12abc"`) returns the value of that digit run,
provided it fits in `int`. -/
theorem stoi_digit_run (pre suf : List Char) (hne : pre ≠ [])
    (hdig : ∀ c ∈ pre, c.isDigit = true)
    (hsuf : ∀ c, suf.head? = some c → c.isDigit = false)
    (hrange : (digitsToNat pre : Int) ≤ intMax) :
    stoi (String.mk (pre ++ suf)) = some ((digitsToNat pre : Nat) : Int) := by
  rcases pre with _ | ⟨c, cs⟩
  · exact absurd rfl hne
  have hc : c.isDigit = true := hdig c (by simp)
  have hdata : (String.mk ((c :: cs) ++ suf)).data = (c :: cs) ++ suf := rfl
  have hdrop : ((c :: cs) ++ suf).dropWhile isSpaceChar = (c :: cs) ++ suf :=
    dropWhile_of_head_false _ (by
      intro d hd
      simp only [List.cons_append, List.head?_cons, Option.some.injEq] at hd
      subst hd
      exact isDigit_not_space hc)
  have hsplit : splitSign ((c :: cs) ++ suf) = (false, (c :: cs) ++ suf) := by
    simp only [List.cons_append, splitSign]
    rw [if_neg (isDigit_ne_minus hc), if_neg (isDigit_ne_plus hc)]
  have htake : ((c :: cs) ++ suf).takeWhile Char.isDigit = c :: cs := by
    rw [takeWhile_append_of_all (c :: cs) suf hdig,
      takeWhile_eq_nil_of_head suf hsuf, List.append_nil]
  rw [stoi, hdata, hdrop]
  simp only [hsplit, htake]
  rw [if_neg (by simp)]
  rw [if_neg (by
    simp only [Bool.false_eq_true, if_false, not_or, not_lt, intMin, intMax]
    simp only [intMax] at hrange
    omega)]
  simp

end ProjectUtils

open ProjectUtils

/-! ## The claims -/

/-- C1: for every sorted, duplicate-free integer sequence `arr` and every
target present in `arr`, both `jumpSearch` and `interpolationSearch` return
the unique index `i` with `arr[i] = target` (returned as `some i`; the
`Option` layer records that no out-of-bounds access occurred). -/
theorem claim_C1_present_found (arr : List Int) (target : Int) (i : Nat)
    (hst : arr.Pairwise (· < ·)) (hi : i < arr.length) (ht : arr[i] = target) :
    jumpSearch arr target = some (i : Int) ∧
    interpolationSearch arr target = some (i : Int) ∧
    (∀ j (hj : j < arr.length), arr[j] = target → j = i) := by
  refine ⟨jumpSearch_present hst hi ht, interpolationSearch_present hst hi ht, ?_⟩
  intro j hj htj
  exact pairwise_getElem_inj hst hj hi (by rw [ht, htj])

theorem claim_C1_present_found_witness :
    List.Pairwise (· < ·) ([2, 4, 6, 8, 10] : List Int) ∧
    ([2, 4, 6, 8, 10] : List Int)[3] = 8 ∧
    jumpSearch [2, 4, 6, 8, 10] 8 = some 3 ∧
    interpolationSearch [2, 4, 6, 8, 10] 8 = some 3 := by
  refine ⟨by decide, by decide, ?_, ?_⟩
  · exact (claim_C1_present_found [2, 4, 6, 8, 10] 8 3 (by decide) (by decide) (by decide)).1
  · exact (claim_C1_present_found [2, 4, 6, 8, 10] 8 3 (by decide) (by decide) (by decide)).2.1

/-- C2: for every sorted, duplicate-free integer sequence `arr` and every
target absent from `arr` (including the empty array with any target), both
algorithms return the not-found sentinel `-1` — never a valid index and
never a fault (the result is `some (-1)`, not `none`). -/
theorem claim_C2_absent_not_found (arr : List Int) (target : Int)
    (hst : arr.Pairwise (· < ·)) (habs : target ∉ arr) :
    jumpSearch arr target = some (-1) ∧
    interpolationSearch arr target = some (-1) :=
  ⟨jumpSearch_absent habs, interpolationSearch_absent habs⟩

theorem claim_C2_absent_not_found_witness :
    (List.Pairwise (· < ·) ([2, 4, 6, 8, 10] : List Int) ∧ (7 : Int) ∉ ([2, 4, 6, 8, 10] : List Int) ∧
      jumpSearch [2, 4, 6, 8, 10] 7 = some (-1) ∧
      interpolationSearch [2, 4, 6, 8, 10] 7 = some (-1)) ∧
    (jumpSearch [] 7 = some (-1) ∧ interpolationSearch [] 7 = some (-1)) := by
  refine ⟨⟨by decide, by decide, ?_⟩, ?_⟩
  · exact claim_C2_absent_not_found [2, 4, 6, 8, 10] 7 (by decide) (by decide)
  · exact claim_C2_absent_not_found [] 7 (by decide) (by decide)

/-- C3: on every sorted, duplicate-free integer sequence and every target —
including targets far outside the value range — every array access either
search performs is in bounds: in this total embedding, where each raw read
goes through `getI`/`getN` and an out-of-bounds read propagates as `none`,
both searches always return `some _`. -/
theorem claim_C3_no_out_of_bounds_access (arr : List Int) (target : Int)
    (hst : arr.Pairwise (· < ·)) :
    (jumpSearch arr target).isSome ∧ (interpolationSearch arr target).isSome :=
  ⟨jumpSearch_isSome arr target, interpolationSearch_isSome arr target⟩

theorem claim_C3_no_out_of_bounds_access_witness :
    List.Pairwise (· < ·) ([2, 4, 6] : List Int) ∧
    ((jumpSearch [2, 4, 6] 1000000).isSome ∧ (interpolationSearch [2, 4, 6] 1000000).isSome) :=
  ⟨by decide, claim_C3_no_out_of_bounds_access [2, 4, 6] 1000000 (by decide)⟩

/-- C4: the claim says the probe equals
`low + ((high - low) * (target - arr[low])) / (arr[high] - arr[low])` with
the full product formed before the division (`probePosSpec`), but the source
divides `(high - low)` by `(arr[high] - arr[low])` *before* multiplying
(`probePos`, ProjectUtils.h:209).  At the reachable first-iteration state of
`interpolationSearch [0,2,4,6,8,10] 8` — `low = 0`, `high = 5`,
`arr[low] = 0`, `arr[high] = 10`, `target = 8`, with `low < high` and
`arr[low] ≤ target ≤ arr[high]` — the code computes probe `0` where the
spec formula yields `4`, so the claim fails on the code. -/
theorem claim_C4_probe_divides_before_multiplying :
    probePos 0 5 0 10 8 = 0 ∧ probePosSpec 0 5 0 10 8 = 4 ∧
    probePos 0 5 0 10 8 ≠ probePosSpec 0 5 0 10 8 :=
  ⟨by decide, by decide, by decide⟩

/-- C5 (counterexample): the loader clears the dataset before attempting to
open the file (ProjectUtils.h:99), so on a resource error the prior dataset
`[1,2,3]` is *not* left unchanged — it is emptied — refuting the claim's
"no dataset mutation occurs" at this concrete input. -/
theorem claim_C5_counterexample :
    (loadAndSortDatasetFromFile [1, 2, 3] none).fst = false ∧
    (loadAndSortDatasetFromFile [1, 2, 3] none).snd ≠ [1, 2, 3] :=
  ⟨rfl, by decide⟩

/-- C5 (amended): for every prior dataset contents and a file that cannot be
opened, `loadAndSortDatasetFromFile` returns `false` and leaves the dataset
*empty*: the dataset is cleared on entry, before the open attempt, so the
prior contents are discarded rather than preserved. -/
theorem claim_C5_amended (dataset : List Int) :
    loadAndSortDatasetFromFile dataset none = (false, []) := rfl

/-- C6: for every non-empty sorted, duplicate-free dataset and every absent
target, `findClosestValues` returns a sequence sorted by ascending
`|value - target|` with ties broken by ascending value (`closerLe`), of
length exactly `min 10 |arr|`, with no duplicates, and drawn from the
dataset.  (The window construction alone can under-fill, but the fill-up
pass at main.cpp:99-115 always completes the list to `min 10 |arr|`.) -/
theorem claim_C6_closest_values (dataset : List Int) (target : Int)
    (hst : dataset.Pairwise (· < ·)) (hne : dataset ≠ []) (habs : target ∉ dataset) :
    List.Sorted (closerLe target) (findClosestValues dataset target) ∧
    (findClosestValues dataset target).length = min 10 dataset.length ∧
    (findClosestValues dataset target).Nodup ∧
    (∀ x ∈ findClosestValues dataset target, x ∈ dataset) := by
  obtain ⟨hlen, hnd, hsub, _⟩ := preList_spec dataset target hst hne
  rw [findClosestValues_eq_sorted dataset target hst hne]
  have hperm := List.perm_insertionSort (closerLe target) (preList dataset target)
  refine ⟨List.sorted_insertionSort _ _, ?_, ?_, ?_⟩
  · rw [hperm.length_eq]
    exact hlen
  · exact hperm.nodup_iff.mpr hnd
  · intro x hx
    exact hsub x (hperm.mem_iff.mp hx)

theorem claim_C6_closest_values_witness :
    List.Pairwise (· < ·) ([1, 2, 3] : List Int) ∧ ([1, 2, 3] : List Int) ≠ [] ∧
    (10 : Int) ∉ ([1, 2, 3] : List Int) ∧
    (List.Sorted (closerLe 10) (findClosestValues [1, 2, 3] 10) ∧
      (findClosestValues [1, 2, 3] 10).length = min 10 ([1, 2, 3] : List Int).length ∧
      (findClosestValues [1, 2, 3] 10).Nodup ∧
      (∀ x ∈ findClosestValues [1, 2, 3] 10, x ∈ ([1, 2, 3] : List Int))) :=
  ⟨by decide, by decide, by decide,
    claim_C6_closest_values [1, 2, 3] 10 (by decide) (by decide) (by decide)⟩

/-- C7: loading a file from which zero lines parse as valid integers
reports failure with an empty dataset, and the loader reports success iff
at least one line parsed. -/
theorem claim_C7_zero_valid_lines (dataset : List Int) (lines : List String) :
    ((∀ l ∈ lines, stoi l = none) →
      loadAndSortDatasetFromFile dataset (some lines) = (false, [])) ∧
    ((loadAndSortDatasetFromFile dataset (some lines)).fst = true ↔
      ∃ l ∈ lines, (stoi l).isSome) := by
  constructor
  · intro h
    rw [load_some]
    rw [if_pos (List.filterMap_eq_nil_iff.mpr h)]
  · rw [load_some]
    by_cases h : lines.filterMap stoi = []
    · rw [if_pos h]
      constructor
      · intro hcon
        simp at hcon
      · rintro ⟨l, hl, hsome⟩
        have := List.filterMap_eq_nil_iff.mp h l hl
        rw [this] at hsome
        simp at hsome
    · rw [if_neg h]
      constructor
      · intro _
        rcases List.exists_mem_of_ne_nil _ h with ⟨v, hv⟩
        rcases List.mem_filterMap.mp hv with ⟨l, hl, hstoi⟩
        exact ⟨l, hl, by rw [hstoi]; rfl⟩
      · intro _
        rfl

theorem claim_C7_zero_valid_lines_witness :
    (∀ l ∈ (["a", ""] : List String), stoi l = none) ∧
    loadAndSortDatasetFromFile [5] (some ["a", ""]) = (false, []) :=
  ⟨by decide, (claim_C7_zero_valid_lines [5] ["a", ""]).1 (by decide)⟩

/-- C8: `measureSearchTime` stores the value of a single invocation of the
search function in `result_index` and leaves the dataset and target
unchanged; the embedding's invocation counter records exactly one
application of `search_func`. -/
theorem claim_C8_measure_single_invocation (search_func : List Int → Int → Int)
    (dataset : List Int) (target clock_start clock_end : Int) :
    (measureSearchTime search_func dataset target clock_start clock_end).result_index =
        search_func dataset target ∧
    (measureSearchTime search_func dataset target clock_start clock_end).invocation_count = 1 ∧
    (measureSearchTime search_func dataset target clock_start clock_end).dataset_after =
        dataset ∧
    (measureSearchTime search_func dataset target clock_start clock_end).target_after =
        target :=
  ⟨rfl, rfl, rfl, rfl⟩

/-- C9: a loader line is kept iff `std::stoi` succeeds on it, and `stoi`
accepts a leading integer with trailing non-numeric garbage: every line of
the form digits-then-garbage within `int` range parses to the digit run's
value, which lands in the loaded dataset, and conversely every loaded value
comes from some line `stoi` accepted. -/
theorem claim_C9_trailing_garbage_parsed (dataset : List Int) (lines : List String)
    (s : String) (pre suf : List Char)
    (hmem : s ∈ lines) (hs : s.data = pre ++ suf) (hne : pre ≠ [])
    (hdig : ∀ c ∈ pre, c.isDigit = true)
    (hsuf : ∀ c, suf.head? = some c → c.isDigit = false)
    (hrange : (digitsToNat pre : Int) ≤ intMax) :
    stoi s = some ((digitsToNat pre : Nat) : Int) ∧
    (loadAndSortDatasetFromFile dataset (some lines)).fst = true ∧
    ((digitsToNat pre : Nat) : Int) ∈ (loadAndSortDatasetFromFile dataset (some lines)).snd ∧
    (∀ w ∈ (loadAndSortDatasetFromFile dataset (some lines)).snd,
      ∃ l ∈ lines, stoi l = some w) := by
  have hsmk : s = String.mk (pre ++ suf) := by
    cases s with
    | mk d =>
      simp only at hs
      rw [hs]
  have hstoi : stoi s = some ((digitsToNat pre : Nat) : Int) := by
    rw [hsmk]
    exact stoi_digit_run pre suf hne hdig hsuf hrange
  have hvmem : ((digitsToNat pre : Nat) : Int) ∈ lines.filterMap stoi :=
    List.mem_filterMap.mpr ⟨s, hmem, hstoi⟩
  have hnil : lines.filterMap stoi ≠ [] := List.ne_nil_of_mem hvmem
  refine ⟨hstoi, ?_, ?_, ?_⟩
  · rw [load_some, if_neg hnil]
  · rw [load_some, if_neg hnil]
    show _ ∈ uniqueAdjacent (List.insertionSort (· ≤ ·) (lines.filterMap stoi))
    rw [uniqueAdjacent_mem]
    exact (List.perm_insertionSort (· ≤ ·) (lines.filterMap stoi)).mem_iff.mpr hvmem
  · intro w hw
    rw [load_some, if_neg hnil] at hw
    have hw2 : w ∈ List.insertionSort (· ≤ ·) (lines.filterMap stoi) := by
      rw [← uniqueAdjacent_mem]
      exact hw
    have hw3 : w ∈ lines.filterMap stoi :=
      (List.perm_insertionSort (· ≤ ·) (lines.filterMap stoi)).mem_iff.mp hw2
    exact List.mem_filterMap.mp hw3

theorem claim_C9_trailing_garbage_parsed_witness :
    stoi "12abc" = some 12 ∧
    (loadAndSortDatasetFromFile [] (some ["12abc"])).fst = true ∧
    (12 : Int) ∈ (loadAndSortDatasetFromFile [] (some ["12abc"])).snd := by
  have h := claim_C9_trailing_garbage_parsed [] ["12abc"] "12abc"
    ['1', '2'] ['a', 'b', 'c'] (by decide) (by decide) (by decide)
    (by decide) (by decide) (by decide)
  exact ⟨h.1, h.2.1, h.2.2.1⟩

/-- C10: when the target *is* present in a non-empty sorted duplicate-free
dataset, `findClosestValues` returns a non-empty sequence whose first
element is the target itself: the target has distance 0, which sorts
strictly before every other value under the distance-then-value order. -/
theorem claim_C10_present_target_heads (dataset : List Int) (target : Int)
    (hst : dataset.Pairwise (· < ·)) (hmem : target ∈ dataset) :
    findClosestValues dataset target ≠ [] ∧
    (findClosestValues dataset target).head? = some target := by
  have hne : dataset ≠ [] := by
    rintro rfl
    simp at hmem
  obtain ⟨hlen, hnd, hsub, hmem2⟩ := preList_spec dataset target hst hne
  rw [findClosestValues_eq_sorted dataset target hst hne]
  have hperm := List.perm_insertionSort (closerLe target) (preList dataset target)
  have hsorted := List.sorted_insertionSort (closerLe target) (preList dataset target)
  have htmem : target ∈ List.insertionSort (closerLe target) (preList dataset target) :=
    hperm.mem_iff.mpr (hmem2 hmem)
  cases hsort : List.insertionSort (closerLe target) (preList dataset target) with
  | nil =>
    rw [hsort] at htmem
    simp at htmem
  | cons b rest =>
    rw [hsort] at htmem hsorted
    refine ⟨by simp, ?_⟩
    rw [List.head?_cons]
    rcases List.mem_cons.mp htmem with rfl | hrest
    · rfl
    · have h1 : closerLe target b target := (List.pairwise_cons.mp hsorted).1 target hrest
      have hb : b = target := by
        unfold closerLe at h1
        simp only [sub_self, abs_zero] at h1
        rcases h1 with h1 | ⟨h1, _⟩
        · have h0 : 0 ≤ |b - target| := abs_nonneg _
          omega
        · have h0 := abs_eq_zero.mp h1
          omega
      rw [hb]

theorem claim_C10_present_target_heads_witness :
    List.Pairwise (· < ·) ([1, 2, 3] : List Int) ∧ (2 : Int) ∈ ([1, 2, 3] : List Int) ∧
    (findClosestValues [1, 2, 3] 2 ≠ [] ∧
      (findClosestValues [1, 2, 3] 2).head? = some 2) :=
  ⟨by decide, by decide, claim_C10_present_target_heads [1, 2, 3] 2 (by decide) (by decide)⟩
